import Mathlib

/-!
Verification development for the ilana-orm core (JavaScript ORM).

This file shallowly embeds the parts of the source that the checked
properties are about:

* the JS `Model` class (attribute store, dirty set, lifecycle hooks,
  `save`/`delete`/`restore`) found in `src/orm/QueryBuilder.ts` after the
  document separator (the live CommonJS `Model.js`, lines 590-1190);
* the JS `QueryBuilder` (`src/orm/QueryBuilder.js`): soft-delete filtering in
  `get`/`first`/`find` and the eager-load engine `loadRelation`;
* `MorphTo.getResults` from `src/orm/Relation.js`;
* `MoneyCast` and `JsonCast` from `src/orm/CustomCasts.ts`.

Modelling conventions:

* JavaScript runtime values are `JsVal` (undefined, null, booleans, numbers
  as exact rationals, strings, `Date` objects as integer timestamps).
* The external query engine (knex) is modelled logically: a built query is a
  list of predicates (`WherePred`), a table is a list of rows, and executing a
  select filters the table; mutation statements are recorded as `Query`
  values and can be replayed against a table with `applyQueries`.
* Lifecycle hook handlers are arbitrary functions from the model state to a
  returned `JsVal` and a successor model state (JS handlers may mutate the
  model and return any value).
* The embedded model class has no attribute casts configured
  (`static casts = {}`), no global scopes, and the impure inputs of `save`
  (`_getCurrentTimestamp`, the engine-generated id of `insertGetId`,
  `generateUuid`) are threaded explicitly through `SaveEnv`.
* The JS field `exists` is called `existsF` here (`exists` is reserved).
-/

/-- A JavaScript runtime value, as far as the ORM core inspects values:
`undefined`, `null`, booleans, numbers (exact rationals), strings, and
`Date` objects (represented by an integer timestamp). -/
inductive JsVal where
  | vundefined
  | vnull
  | vbool (b : Bool)
  | vnum (q : ℚ)
  | vstr (s : String)
  | vdate (t : ℤ)
deriving DecidableEq, Repr

/-- JavaScript truthiness of a `JsVal` (`undefined`, `null`, `false`, `0`
and the empty string are falsy; `Date` objects are always truthy). -/
def truthy : JsVal → Bool
  | .vundefined => false
  | .vnull => false
  | .vbool b => b
  | .vnum q => q != 0
  | .vstr s => s != ""
  | .vdate _ => true

/-- Whether a stored value counts as SQL `NULL` (a missing attribute is
`undefined` in JS and becomes `NULL` once persisted). -/
def isDbNull : JsVal → Bool
  | .vundefined => true
  | .vnull => true
  | _ => false

/-- SQL equality used by `where`/`whereIn` comparisons: `NULL` never compares
equal to anything; other values compare structurally. -/
def dbEq (a b : JsVal) : Bool :=
  if isDbNull a || isDbNull b then false else a == b

/-- The string a `JsVal` turns into when used as a JavaScript object key or
interpolated into a template literal.  Integers print without a fractional
part; non-integral rationals use a canonical `num/den` rendering (a modelling
choice; the embedded scenarios only use integers and strings). -/
def jsObjKey : JsVal → String
  | .vundefined => "undefined"
  | .vnull => "null"
  | .vbool true => "true"
  | .vbool false => "false"
  | .vnum q => if q.den = 1 then toString q.num else toString q.num ++ "/" ++ toString q.den
  | .vstr s => s
  | .vdate t => "date-" ++ toString t

/-- An ordered attribute map (JS object): column name to raw stored value. -/
abbrev AttrList := List (String × JsVal)

/-- JS property read `obj[k]`: first binding wins, missing keys read as
`undefined`. -/
def lookupA (l : AttrList) (k : String) : JsVal :=
  match l.find? (fun kv => kv.1 == k) with
  | some kv => kv.2
  | none => .vundefined

/-- JS property write `obj[k] = v`: overwrite the existing binding in place
(keeping key order) or append a fresh key at the end.  JS objects never hold
a key twice, so replacing the first binding models the assignment exactly. -/
def setA (l : AttrList) (k : String) (v : JsVal) : AttrList :=
  match l with
  | [] => [(k, v)]
  | kv :: rest => if kv.1 = k then (k, v) :: rest else kv :: setA rest k v

/-! ### Logical query descriptions

The external engine (knex) is consumed through `where`/`whereIn`/`whereNull`/
`whereNotNull` composition; a built query is modelled as the list of
predicates it accumulated, and running a select filters a table. -/

/-- One accumulated `where` clause. -/
inductive WherePred where
  | eqP (col : String) (v : JsVal)
  | inP (col : String) (vs : List JsVal)
  | nullP (col : String)
  | notNullP (col : String)
deriving DecidableEq, Repr

/-- The column a predicate constrains. -/
def WherePred.col : WherePred → String
  | .eqP c _ => c
  | .inP c _ => c
  | .nullP c => c
  | .notNullP c => c

/-- SQL satisfaction of one predicate by one row. -/
def WherePred.holds : WherePred → AttrList → Bool
  | .eqP c v, r => dbEq (lookupA r c) v
  | .inP c vs, r => vs.any (fun v => dbEq (lookupA r c) v)
  | .nullP c, r => isDbNull (lookupA r c)
  | .notNullP c, r => !isDbNull (lookupA r c)

/-- Executing the select part of a built query: keep the rows satisfying
every accumulated predicate, in table order. -/
def runFilter (ps : List WherePred) (t : List AttrList) : List AttrList :=
  t.filter (fun r => ps.all (fun p => p.holds r))

/-- One statement handed to the query engine. -/
inductive Query where
  | selectQ (table : String) (preds : List WherePred)
  | insertQ (table : String) (row : AttrList)
  | insertGetIdQ (table : String) (row : AttrList)
  | updateQ (table : String) (preds : List WherePred) (data : AttrList)
  | deleteQ (table : String) (preds : List WherePred)
deriving DecidableEq, Repr

/-- Whether a statement is an `update`. -/
def isUpdateQ : Query → Bool
  | .updateQ _ _ _ => true
  | _ => false

/-- Overwrite a row with an update payload (knex `update(data)` semantics on
one row). -/
def applyData (r : AttrList) (data : AttrList) : AttrList :=
  data.foldl (fun acc kv => setA acc kv.1 kv.2) r

/-- Replay one mutation statement against a table (the engine's effect);
selects leave the table unchanged. -/
def applyQuery (t : List AttrList) : Query → List AttrList
  | .updateQ _ preds data =>
      t.map (fun r => if preds.all (fun p => p.holds r) then applyData r data else r)
  | .deleteQ _ preds => t.filter (fun r => !(preds.all (fun p => p.holds r)))
  | .insertQ _ row => t ++ [row]
  | .insertGetIdQ _ row => t ++ [row]
  | .selectQ _ _ => t

/-- Replay a statement list in order. -/
def applyQueries (t : List AttrList) (qs : List Query) : List AttrList :=
  qs.foldl applyQuery t

/-! ### The JS `Model` class

Transcribed from the live CommonJS `Model.js` (second document of
`src/orm/QueryBuilder.ts`, lines 590-1190).  The embedded model class has no
attribute casts configured, so the cast branches of `getAttribute` /
`setAttribute` are identity. -/

/-- The static configuration of a model class (`static table / primaryKey /
keyType / incrementing / timestamps / softDeletes`). -/
structure ModelCfg where
  table : String
  primaryKey : String := "id"
  keyTypeString : Bool := false
  incrementing : Bool := true
  timestamps : Bool := true
  softDeletes : Bool := false
deriving DecidableEq, Repr

/-- The mutable state of one model instance: `attributes`, `original`, the
`_dirty` key set (insertion-ordered, duplicate-free), `exists`
(here `existsF`), `wasRecentlyCreated`, and the `_deferred` constructor
payload consumed by `_initialize`. -/
structure ModelState where
  attributes : AttrList := []
  original : AttrList := []
  dirty : List String := []
  existsF : Bool := false
  wasRecentlyCreated : Bool := false
  deferred : Option AttrList := none
deriving DecidableEq, Repr

/-- `getAttribute(k)` with no cast configured for `k`: the raw stored value. -/
def getAttribute (m : ModelState) (k : String) : JsVal :=
  lookupA m.attributes k

/-- `setAttribute(k, v)` with no cast configured for `k`: store the value and
mark the key dirty only when not in deferred initialization and the model
already exists. -/
def setAttribute (m : ModelState) (k : String) (v : JsVal) : ModelState :=
  let m1 := { m with attributes := setA m.attributes k v }
  if m1.deferred.isNone && m1.existsF then
    if m1.dirty.contains k then m1 else { m1 with dirty := m1.dirty ++ [k] }
  else m1

/-- `syncOriginal()`: snapshot `attributes` into `original` and clear the
dirty set. -/
def syncOriginal (m : ModelState) : ModelState :=
  { m with original := m.attributes, dirty := [] }

/-- `_initialize()`: consume the deferred constructor payload through
`setAttribute` (no dirt, since `_deferred` is still set), then
`syncOriginal`, then drop the payload. -/
def initializeM (m : ModelState) : ModelState :=
  match m.deferred with
  | none => m
  | some attrs =>
      let m1 := attrs.foldl (fun acc kv => setAttribute acc kv.1 kv.2) m
      { syncOriginal m1 with deferred := none }

/-- `getKey()`: the raw primary-key attribute. -/
def getKey (cfg : ModelCfg) (m : ModelState) : JsVal :=
  lookupA m.attributes cfg.primaryKey

/-- `isDirty()` (no argument): whether the dirty set is non-empty. -/
def isDirty (m : ModelState) : Bool :=
  !m.dirty.isEmpty

/-- `getDirty()`: the dirty keys with their current attribute values. -/
def getDirty (m : ModelState) : AttrList :=
  m.dirty.map (fun k => (k, lookupA m.attributes k))

/-- A lifecycle hook handler: receives the model and produces a returned
value together with the (possibly mutated) model. -/
def Handler := ModelState → JsVal × ModelState

/-- The per-class `static events` registration map. -/
structure Events where
  creating : List Handler := []
  updating : List Handler := []
  saving : List Handler := []
  created : List Handler := []
  updated : List Handler := []
  saved : List Handler := []
  deleting : List Handler := []
  deleted : List Handler := []
  restoring : List Handler := []
  restored : List Handler := []

/-- No registered handlers. -/
def noEvents : Events := {}

/-- `static fireEvent(evt, mdl)`: run the handlers in registration order;
abort (returning `false`) as soon as one returns strictly `false`, skipping
the rest. -/
def fireEvent : List Handler → ModelState → Bool × ModelState
  | [], m => (true, m)
  | h :: hs, m =>
      let r := h m
      if r.1 == JsVal.vbool false then (false, r.2) else fireEvent hs r.2

/-- The impure inputs of `save`, threaded explicitly: the current timestamp,
the id the engine returns from `insertGetId`, and the generated UUID. -/
structure SaveEnv where
  now : ℤ := 0
  newId : JsVal := .vnum 1
  uuid : String := "uuid"

/-- The observable outcome of `save`/`delete`/`restore`: the returned
boolean, the final model state, the statements issued to the engine, and the
lifecycle events that were fired (in order). -/
structure SaveRes where
  ok : Bool
  model : ModelState
  queries : List Query
  fired : List String
deriving Repr

/-- `Model.prototype.save()` (JS `Model.js` lines 964-1017), split into its
two active branches (`saveCreate`, `saveUpdate`) plus the dispatcher
(`saveM`).  This is the not-exists branch: `creating`→`saving`
(strict-`false` abort), stamp both timestamps, generate a UUID key for
non-incrementing string keys, insert (`insertGetId` assigns the returned
id), mark existing, fire `created`→`saved`, resync. -/
def saveCreate (cfg : ModelCfg) (ev : Events) (env : SaveEnv) (m : ModelState) : SaveRes :=
  let r1 := fireEvent ev.creating m
  if !r1.1 then ⟨false, r1.2, [], ["creating"]⟩ else
  let r2 := fireEvent ev.saving r1.2
  if !r2.1 then ⟨false, r2.2, [], ["creating", "saving"]⟩ else
  let m := r2.2
  let m := if cfg.timestamps then
      setAttribute (setAttribute m "created_at" (.vdate env.now)) "updated_at" (.vdate env.now)
    else m
  let m := if !cfg.incrementing && cfg.keyTypeString && !truthy (getKey cfg m) then
      setAttribute m cfg.primaryKey (.vstr env.uuid)
    else m
  let qs := if cfg.incrementing then [Query.insertGetIdQ cfg.table m.attributes]
    else [Query.insertQ cfg.table m.attributes]
  let m := if cfg.incrementing then setAttribute m cfg.primaryKey env.newId else m
  let m := { m with existsF := true, wasRecentlyCreated := true }
  let r3 := fireEvent ev.created m
  let r4 := fireEvent ev.saved r3.2
  ⟨true, syncOriginal r4.2, qs, ["creating", "saving", "created", "saved"]⟩

/-- The exists-and-dirty branch of `save()`. -/
def saveUpdate (cfg : ModelCfg) (ev : Events) (env : SaveEnv) (m : ModelState) : SaveRes :=
  let r1 := fireEvent ev.updating m
  if !r1.1 then ⟨false, r1.2, [], ["updating"]⟩ else
  let r2 := fireEvent ev.saving r1.2
  if !r2.1 then ⟨false, r2.2, [], ["updating", "saving"]⟩ else
  let m := r2.2
  let m := if cfg.timestamps then setAttribute m "updated_at" (.vdate env.now) else m
  let updateData := (getDirty m).filter (fun kv => kv.1 ≠ "created_at")
  let qs : List Query :=
    if updateData.isEmpty then []
    else [Query.updateQ cfg.table [WherePred.eqP cfg.primaryKey (getKey cfg m)] updateData]
  let r3 := fireEvent ev.updated m
  let r4 := fireEvent ev.saved r3.2
  ⟨true, syncOriginal r4.2, qs, ["updating", "saving", "updated", "saved"]⟩

/-- `save()` proper: `_initialize`, then dispatch on `exists` / `isDirty()`.
The not-exists branch is `saveCreate`, the exists-and-dirty branch is
`saveUpdate`, the clean branch returns `true` with no statements and no
events. -/
def saveM (cfg : ModelCfg) (ev : Events) (env : SaveEnv) (m0 : ModelState) : SaveRes :=
  let m := initializeM m0
  if !m.existsF then saveCreate cfg ev env m
  else if isDirty m then saveUpdate cfg ev env m
  else ⟨true, m, [], []⟩

/-- `Model.prototype.delete()` (JS `Model.js` lines 1036-1051).  The
`deleting` hook is fired but its result is ignored; soft-deleting models set
the `deleted_at` sentinel and `save()` (result also ignored), others issue a
hard delete and clear `exists`; `deleted` fires and `true` is returned. -/
def deleteM (cfg : ModelCfg) (ev : Events) (env : SaveEnv) (m0 : ModelState) : SaveRes :=
  if !m0.existsF then ⟨false, m0, [], []⟩ else
  let r0 := fireEvent ev.deleting m0
  let m1 := r0.2
  if cfg.softDeletes then
    let m2 := setAttribute m1 "deleted_at" (.vdate env.now)
    let r := saveM cfg ev env m2
    let r1 := fireEvent ev.deleted r.model
    ⟨true, r1.2, r.queries, "deleting" :: r.fired ++ ["deleted"]⟩
  else
    let q := Query.deleteQ cfg.table [WherePred.eqP cfg.primaryKey (getKey cfg m1)]
    let m2 := { m1 with existsF := false }
    let r1 := fireEvent ev.deleted m2
    ⟨true, r1.2, [q], ["deleting", "deleted"]⟩

/-- `Model.prototype.restore()` (JS `Model.js` lines 1053-1065): bail out
unless soft deletes are enabled and the sentinel is truthy; fire `restoring`
(result ignored), null the sentinel, `save()`, fire `restored`, return
`true`. -/
def restoreModel (cfg : ModelCfg) (ev : Events) (env : SaveEnv) (m0 : ModelState) : SaveRes :=
  if !cfg.softDeletes || !truthy (getAttribute m0 "deleted_at") then ⟨false, m0, [], []⟩ else
  let r0 := fireEvent ev.restoring m0
  let m1 := setAttribute r0.2 "deleted_at" .vnull
  let r := saveM cfg ev env m1
  let r1 := fireEvent ev.restored r.model
  ⟨true, r1.2, r.queries, "restoring" :: r.fired ++ ["restored"]⟩

/-! ### The JS `QueryBuilder` execution methods

Transcribed from `src/orm/QueryBuilder.js`.  A builder carries the base
predicates accumulated by `where*` calls plus the soft-delete visibility
flags set by `withTrashed()` / `onlyTrashed()`. -/

/-- The builder's trashed-row visibility flags (`_includeTrashed`,
`_onlyTrashed`). -/
structure TrashMode where
  includeTrashed : Bool := false
  onlyTrashed : Bool := false
deriving DecidableEq, Repr

/-- The default visibility (neither `withTrashed()` nor `onlyTrashed()`
was called). -/
def trashDefault : TrashMode := {}

/-- Visibility after `withTrashed()`. -/
def trashWith : TrashMode := { includeTrashed := true }

/-- Visibility after `onlyTrashed()`. -/
def trashOnly : TrashMode := { onlyTrashed := true }

/-- The sentinel predicates `get`/`first`/`find` append for a soft-deleting
model class (`QueryBuilder.js` lines 313-320): `whereNotNull('deleted_at')`
under `onlyTrashed`, `whereNull('deleted_at')` by default, nothing under
`withTrashed`. -/
def softPreds (cfg : ModelCfg) (tm : TrashMode) : List WherePred :=
  if cfg.softDeletes then
    if tm.onlyTrashed then [.notNullP "deleted_at"]
    else if !tm.includeTrashed then [.nullP "deleted_at"]
    else []
  else []

/-- Materializing one row (`QueryBuilder.js` lines 323-327):
`new modelClass(row)` defers the attributes, then `exists` is set and
`_initialize()` runs. -/
def hydrate (row : AttrList) : ModelState :=
  let m : ModelState := { deferred := if row.isEmpty then none else some row }
  initializeM { m with existsF := true }

/-- `QueryBuilder.get()` without eager loads: append the soft-delete
sentinel predicates, run the select, materialize every row.  Returns the
models and the issued statement. -/
def getJS (cfg : ModelCfg) (tm : TrashMode) (base : List WherePred) (table : List AttrList) :
    List ModelState × List Query :=
  let preds := base ++ softPreds cfg tm
  ((runFilter preds table).map hydrate, [Query.selectQ cfg.table preds])

/-- `QueryBuilder.first()` without eager loads: like `get` but returning the
first row or `null`. -/
def firstJS (cfg : ModelCfg) (tm : TrashMode) (base : List WherePred) (table : List AttrList) :
    Option ModelState × List Query :=
  let preds := base ++ softPreds cfg tm
  ((runFilter preds table).head?.map hydrate, [Query.selectQ cfg.table preds])

/-- `QueryBuilder.find(id)` (`QueryBuilder.js` lines 359-385): add
`where('id', id)` — the literal column name `'id'`, not the model's
configured primary key — then the soft-delete sentinels, and take the first
row. -/
def findJS (cfg : ModelCfg) (tm : TrashMode) (base : List WherePred) (table : List AttrList)
    (id : JsVal) : Option ModelState × List Query :=
  let preds := (base ++ [WherePred.eqP "id" id]) ++ softPreds cfg tm
  ((runFilter preds table).head?.map hydrate, [Query.selectQ cfg.table preds])

/-- `QueryBuilder.findOrFail(id)`: `find`, then throw on `null`. -/
def findOrFailJS (cfg : ModelCfg) (tm : TrashMode) (base : List WherePred)
    (table : List AttrList) (id : JsVal) : Except String ModelState × List Query :=
  match findJS cfg tm base table id with
  | (none, qs) => (.error ("Model not found with id: " ++ jsObjKey id), qs)
  | (some m, qs) => (.ok m, qs)

/-! ### The JS eager-load engine

`QueryBuilder.loadRelation` (`QueryBuilder.js` lines 545-623), for the
single-segment, unconstrained case.  Owners are represented by their
attribute row plus the `relations` map; the related models the engine
assigns are hydrated from rows whose attributes are the rows themselves, so
the map records those rows. -/

/-- What `model.relations[name]` holds after assignment: `related[0] || null`
for the singular variants, the grouped list for the plural ones. -/
inductive RelEntry where
  | one (r : Option AttrList)
  | many (rs : List AttrList)
deriving DecidableEq, Repr

/-- The relation variants `loadRelation` dispatches on (via
`relationInstance.constructor.name`). -/
inductive RelKind where
  | hasOne
  | hasMany
  | belongsTo
deriving DecidableEq, Repr

/-- The fields of the relation descriptor that `loadRelation` reads: the
variant, `foreignKey`, `localKey`, and the resolved related class
(table name, primary key, soft-delete flag). -/
structure RelDesc where
  kind : RelKind
  foreignKey : String
  localKey : String
  relatedTable : String
  relatedPrimaryKey : String := "id"
  relatedSoftDeletes : Bool := false
deriving DecidableEq, Repr

/-- An owner as the eager-load engine sees it. -/
structure EModel where
  attributes : AttrList
  relations : List (String × RelEntry) := []
deriving DecidableEq, Repr

/-- Read an owner's relations map (`none` = key absent = not loaded). -/
def lookupRel (l : List (String × RelEntry)) (k : String) : Option RelEntry :=
  (l.find? (fun kv => kv.1 == k)).map (fun kv => kv.2)

/-- Write into an owner's relations map. -/
def setRel (l : List (String × RelEntry)) (k : String) (v : RelEntry) :
    List (String × RelEntry) :=
  match l with
  | [] => [(k, v)]
  | kv :: rest => if kv.1 = k then (k, v) :: rest else kv :: setRel rest k v

/-- Look a table up in the database by name. -/
def tableOf (db : List (String × List AttrList)) (name : String) : List AttrList :=
  match db.find? (fun e => e.1 == name) with
  | some e => e.2
  | none => []

/-- `QueryBuilder.loadRelation(models, relationName)` for one unconstrained
segment, transcribed from `QueryBuilder.js` lines 545-623:

1. collect the owners' `localKey` values, dropping falsy ones;
2. if none remain, return — the owners' relations maps are left untouched;
3. issue one supplemental query: `whereIn(foreignKey, localValues)`
   (for `BelongsTo`: `whereIn(related primary key, foreign-key values)`);
4. group the fetched rows by the value of **the related class's primary
   key** (line 603) under JS object-key string coercion;
5. assign each owner `grouped[matchValue] || []` where `matchValue` is its
   `localKey` value (`foreignKey` value for `BelongsTo`); `HasOne` and
   `BelongsTo` take `related[0] || null`, the rest keep the list.

Returns the updated owners and the issued statements. -/
def loadRelationJS (db : List (String × List AttrList)) (rel : RelDesc) (relName : String)
    (models : List EModel) : List EModel × List Query :=
  let localValues := (models.map (fun m => lookupA m.attributes rel.localKey)).filter truthy
  if localValues.isEmpty then (models, [])
  else
    let (whereCol, whereVals) :=
      if rel.kind = .belongsTo then
        (rel.relatedPrimaryKey,
         (models.map (fun m => lookupA m.attributes rel.foreignKey)).filter truthy)
      else (rel.foreignKey, localValues)
    let preds := [WherePred.inP whereCol whereVals]
      ++ (if rel.relatedSoftDeletes then [WherePred.nullP "deleted_at"] else [])
    let relatedRows := runFilter preds (tableOf db rel.relatedTable)
    let groupKey : AttrList → String := fun r => jsObjKey (lookupA r rel.relatedPrimaryKey)
    let assign : EModel → EModel := fun m =>
      let matchValue :=
        if rel.kind = .belongsTo then lookupA m.attributes rel.foreignKey
        else lookupA m.attributes rel.localKey
      let related := relatedRows.filter (fun r => groupKey r == jsObjKey matchValue)
      let entry :=
        if rel.kind = .hasOne || rel.kind = .belongsTo then RelEntry.one related.head?
        else RelEntry.many related
      { m with relations := setRel m.relations relName entry }
    (models.map assign, [Query.selectQ rel.relatedTable preds])

/-! ### `MorphTo.getResults`

Transcribed from `src/orm/Relation.js` lines 250-267.  The registry is the
process-wide `ModelRegistry` map from class name to model class (here: the
fields the method reads, table name and primary key). -/

/-- A `ModelRegistry` entry: the registered model class, as far as
`MorphTo.getResults` reads it. -/
structure RegEntry where
  table : String
  primaryKey : String := "id"
deriving DecidableEq, Repr

/-- The observable outcome of `MorphTo.getResults`: an early `null`, a thrown
error, or the supplemental query it would execute. -/
inductive MorphToOutcome where
  | retNull
  | thrown (msg : String)
  | runQuery (table : String) (preds : List WherePred)
deriving DecidableEq, Repr

/-- The message of the error `MorphTo.getResults` throws for an unregistered
type name (apostrophes around the name elided). -/
def morphToErrMsg (name : String) : String :=
  "Model " ++ name ++ " not found in registry. Register it using ModelRegistry.register()"

/-- `MorphTo.getResults()`: read the stored type name and id off the parent;
return `null` if either is falsy; otherwise resolve the type name in the
registry (a string-keyed `Map`, so a non-string stored type never matches),
throwing the unresolvable-reference error when absent, and otherwise query
the resolved class's table by its primary key. -/
def morphToGetResults (registry : List (String × RegEntry)) (parent : AttrList)
    (morphType morphId : String) : MorphToOutcome :=
  let mt := lookupA parent morphType
  let mi := lookupA parent morphId
  if !truthy mt || !truthy mi then .retNull
  else
    match mt with
    | .vstr s =>
        match registry.find? (fun e => e.1 == s) with
        | some e => .runQuery e.2.table [WherePred.eqP e.2.primaryKey mi]
        | none => .thrown (morphToErrMsg s)
    | v => .thrown (morphToErrMsg (jsObjKey v))

/-! ### Custom casts (`src/orm/CustomCasts.ts`)

`MoneyCast` works on numbers (or null); JS numbers are modelled as exact
rationals and `Math.round` as floor of `x + 1/2`.  `JsonCast` works on JSON
values; `JSON.stringify` / `JSON.parse` are modelled on a JSON value type
whose numbers are integers (the only numbers the checked scenarios use). -/

/-- JS `Math.round`: round half away from zero toward positive infinity. -/
def jsRound (q : ℚ) : ℤ := ⌊q + 1 / 2⌋

namespace MoneyCast

/-- `MoneyCast.set(value)`: `value ? Math.round(value * 100) : null`
(`none` is `null`; note `0` is falsy and becomes `null`). -/
def set : Option ℚ → Option ℚ
  | some v => if v = 0 then none else some ((jsRound (v * 100) : ℤ) : ℚ)
  | none => none

/-- `MoneyCast.get(value)`: `value ? parseFloat(value) / 100 : null`. -/
def get : Option ℚ → Option ℚ
  | some v => if v = 0 then none else some (v / 100)
  | none => none

end MoneyCast

/-- A JSON value (numbers restricted to integers, the fragment the checked
scenario uses). -/
inductive JVal where
  | jnull
  | jbool (b : Bool)
  | jnum (n : ℤ)
  | jstr (s : String)
  | jarr (xs : List JVal)
  | jobj (fs : List (String × JVal))

/-- JSON string escaping (`"` and `\` only, the characters the modelled
fragment needs). -/
def escStr (s : String) : String :=
  String.join (s.toList.map (fun c =>
    if c = '"' then "\\\"" else if c = '\\' then "\\\\" else String.singleton c))

/-- A quoted JSON string literal. -/
def quoteStr (s : String) : String := "\"" ++ escStr s ++ "\""

/-- The `{` character. -/
def obrace : Char := Char.ofNat 123

/-- The `}` character. -/
def cbrace : Char := Char.ofNat 125

mutual

/-- `JSON.stringify` on the modelled fragment (no added whitespace). -/
def JVal.stringify : JVal → String
  | .jnull => "null"
  | .jbool true => "true"
  | .jbool false => "false"
  | .jnum n => toString n
  | .jstr s => quoteStr s
  | .jarr xs => "[" ++ stringifyItems xs ++ "]"
  | .jobj fs => String.singleton obrace ++ stringifyFields fs ++ String.singleton cbrace

/-- Comma-separated array elements. -/
def stringifyItems : List JVal → String
  | [] => ""
  | [x] => JVal.stringify x
  | x :: xs => JVal.stringify x ++ "," ++ stringifyItems xs

/-- Comma-separated `"key":value` members. -/
def stringifyFields : List (String × JVal) → String
  | [] => ""
  | [f] => quoteStr f.1 ++ ":" ++ JVal.stringify f.2
  | f :: fs => quoteStr f.1 ++ ":" ++ JVal.stringify f.2 ++ "," ++ stringifyFields fs

end

/-- Skip JSON whitespace. -/
def skipWs (cs : List Char) : List Char :=
  cs.dropWhile (fun c => c = ' ' || c = '\t' || c = '\n' || c = '\r')

/-- Consume a digit run, accumulating its value (at least one digit was
checked by the caller). -/
def parseDigitsAux : List Char → ℕ → ℕ × List Char
  | c :: cs, acc =>
      if c.isDigit then parseDigitsAux cs (acc * 10 + (c.toNat - 48)) else (acc, c :: cs)
  | [], acc => (acc, [])

/-- Consume a JSON string body after the opening quote, handling the `\"` and
`\\` escapes. -/
def parseStrAux : List Char → List Char → Option (String × List Char)
  | [], _ => none
  | '"' :: cs, acc => some (String.mk acc.reverse, cs)
  | '\\' :: c :: cs, acc =>
      if c = '"' || c = '\\' then parseStrAux cs (c :: acc) else none
  | ['\\'], _ => none
  | c :: cs, acc => parseStrAux cs (c :: acc)

mutual

/-- Fuel-bounded recursive-descent `JSON.parse` on the modelled fragment. -/
def parseVal : ℕ → List Char → Option (JVal × List Char)
  | 0, _ => none
  | fuel + 1, cs0 =>
      match skipWs cs0 with
      | [] => none
      | c :: rest =>
          if c = obrace then
            match skipWs rest with
            | c2 :: rest2 =>
                if c2 = cbrace then some (.jobj [], rest2)
                else parseObjItems fuel (c2 :: rest2) []
            | [] => none
          else if c = '[' then
            match skipWs rest with
            | ']' :: rest2 => some (.jarr [], rest2)
            | cs2 => parseArrItems fuel cs2 []
          else if c = '"' then
            match parseStrAux rest [] with
            | some (s, r) => some (.jstr s, r)
            | none => none
          else if c = '-' then
            match rest with
            | d :: _ =>
                if d.isDigit then
                  let p := parseDigitsAux rest 0
                  some (.jnum (-(p.1 : ℤ)), p.2)
                else none
            | [] => none
          else if c.isDigit then
            let p := parseDigitsAux (c :: rest) 0
            some (.jnum (p.1 : ℤ), p.2)
          else
            match c :: rest with
            | 'n' :: 'u' :: 'l' :: 'l' :: r => some (.jnull, r)
            | 't' :: 'r' :: 'u' :: 'e' :: r => some (.jbool true, r)
            | 'f' :: 'a' :: 'l' :: 's' :: 'e' :: r => some (.jbool false, r)
            | _ => none

/-- Parse array elements after the first element position. -/
def parseArrItems : ℕ → List Char → List JVal → Option (JVal × List Char)
  | 0, _, _ => none
  | fuel + 1, cs, acc =>
      match parseVal fuel cs with
      | none => none
      | some (v, r) =>
          match skipWs r with
          | ',' :: r2 => parseArrItems fuel (skipWs r2) (v :: acc)
          | ']' :: r2 => some (.jarr (v :: acc).reverse, r2)
          | _ => none

/-- Parse object members after the opening brace (non-empty object). -/
def parseObjItems : ℕ → List Char → List (String × JVal) → Option (JVal × List Char)
  | 0, _, _ => none
  | fuel + 1, cs, acc =>
      match skipWs cs with
      | c :: rest =>
          if c = '"' then
            match parseStrAux rest [] with
            | some (k, r) =>
                match skipWs r with
                | ':' :: r2 =>
                    match parseVal fuel (skipWs r2) with
                    | some (v, r3) =>
                        match skipWs r3 with
                        | ',' :: r4 => parseObjItems fuel r4 ((k, v) :: acc)
                        | c5 :: r5 =>
                            if c5 = cbrace then some (.jobj ((k, v) :: acc).reverse, r5)
                            else none
                        | [] => none
                    | none => none
                | _ => none
            | none => none
          else none
      | [] => none

end

/-- `JSON.parse`: parse a complete value; trailing garbage throws (`none`). -/
def parseJson (s : String) : Option JVal :=
  match parseVal (s.length + 1) s.toList with
  | some (v, rest) => if skipWs rest = [] then some v else none
  | none => none

/-- A `JsonCast.get` result: a JSON value (where JS `null` is `jnull`) or a
thrown `JSON.parse` error. -/
inductive JRes where
  | jerr
  | jok (v : JVal)

namespace JsonCast

/-- `JsonCast.set(value)`: `null`/`undefined` map to `null`, strings pass
through, anything else is `JSON.stringify`ed. -/
def set : JVal → Option String
  | .jnull => none
  | .jstr s => some s
  | v => some v.stringify

/-- `JsonCast.get(value)` on a stored text (or `NULL`) value: falsy input
yields `null`, otherwise the text is `JSON.parse`d (which may throw). -/
def get : Option String → JRes
  | none => .jok .jnull
  | some s =>
      if s = "" then .jok .jnull
      else
        match parseJson s with
        | some v => .jok v
        | none => .jerr

end JsonCast

/-! ### Scenario constants used by the concrete theorems -/

/-- The dirty-set/original consistency invariant every API-reachable model
satisfies (`dirty ⊇ {k : attributes[k] != original[k]}`). -/
def cleanInv (m : ModelState) : Prop :=
  ∀ k, k ∉ m.dirty → lookupA m.original k = lookupA m.attributes k

/-- A hydrated, clean model: exists, empty dirty set, `original` identical to
`attributes`. -/
def hydratedClean (m : ModelState) : Bool :=
  m.existsF && m.dirty.isEmpty && (m.original == m.attributes)

/-- The spec scenario's `items` HasMany descriptor (`order_id` / `id`). -/
def relItems : RelDesc :=
  { kind := .hasMany, foreignKey := "order_id", localKey := "id", relatedTable := "items" }

/-- The spec scenario's `items` table:
`[{id:10,order_id:1},{id:11,order_id:1},{id:12,order_id:2}]`. -/
def itemsTable : List AttrList :=
  [[("id", .vnum 10), ("order_id", .vnum 1)],
   [("id", .vnum 11), ("order_id", .vnum 1)],
   [("id", .vnum 12), ("order_id", .vnum 2)]]

/-- The database holding the `items` table. -/
def scenarioDb : List (String × List AttrList) := [("items", itemsTable)]

/-- `Order{id:1}` as an eager-load owner. -/
def order1 : EModel := { attributes := [("id", .vnum 1)] }

/-- `Order{id:2}` as an eager-load owner. -/
def order2 : EModel := { attributes := [("id", .vnum 2)] }

/-- An owner whose linking key is stored `null`. -/
def ownerNull : EModel := { attributes := [("id", .vnull)] }

/-- A model class used by the concrete hook scenarios. -/
def cfgOrders : ModelCfg := { table := "orders" }

/-- A `deleting` handler that returns `false`. -/
def evDeletingFalse : Events := { deleting := [fun m => (JsVal.vbool false, m)] }

/-- A `creating` handler that returns `false`. -/
def evCreatingFalse : Events := { creating := [fun m => (JsVal.vbool false, m)] }

/-- An existing order row hydrated into a model. -/
def mOrder1 : ModelState := hydrate [("id", .vnum 1)]

/-- The JSON value `{a:1}` of the cast round-trip scenario. -/
def valA1 : JVal := .jobj [("a", .jnum 1)]

/-- A soft-deleting model class for the visibility witness. -/
def cfgPosts : ModelCfg := { table := "posts", softDeletes := true }

/-- The stored row of the visibility witness. -/
def rowPost : AttrList := [("id", .vnum 1), ("title", .vstr "t"), ("deleted_at", .vnull)]

/-! ### Helper lemmas -/

theorem lookupA_setA_eq (l : AttrList) (k : String) (v : JsVal) :
    lookupA (setA l k v) k = v := by
  induction l with
  | nil => simp [setA, lookupA, List.find?]
  | cons kv rest ih =>
    by_cases hk : kv.1 = k
    · simp [setA, lookupA, List.find?, hk]
    · simpa [setA, lookupA, List.find?, hk] using ih

theorem lookupA_setA_ne (l : AttrList) (k k' : String) (v : JsVal) (h : k' ≠ k) :
    lookupA (setA l k v) k' = lookupA l k' := by
  have hb : (k == k') = false := by simpa using Ne.symm h
  induction l with
  | nil => simp [setA, lookupA, List.find?, hb]
  | cons kv rest ih =>
    by_cases hk : kv.1 = k
    · have hb1 : (kv.1 == k') = false := by simpa [hk] using Ne.symm h
      simp [setA, lookupA, List.find?, hk, hb, hb1]
    · by_cases hk' : kv.1 = k'
      · simp [setA, lookupA, List.find?, hk, hk', h]
      · have hb2 : (kv.1 == k') = false := by simpa using hk'
        simpa [setA, lookupA, List.find?, hk, hb2] using ih

theorem lookupA_of_not_mem (l : AttrList) (k : String) (h : k ∉ l.map Prod.fst) :
    lookupA l k = .vundefined := by
  unfold lookupA
  have : l.find? (fun kv => kv.1 == k) = none := by
    apply List.find?_eq_none.mpr
    intro kv hkv
    simp only [beq_iff_eq]
    intro he
    exact h (he ▸ List.mem_map_of_mem Prod.fst hkv)
  rw [this]

theorem dbEq_self (v : JsVal) (h : isDbNull v = false) : dbEq v v = true := by
  simp [dbEq, h]

theorem setAttribute_attributes (m : ModelState) (k : String) (v : JsVal) :
    (setAttribute m k v).attributes = setA m.attributes k v := by
  simp only [setAttribute]
  split
  · split <;> rfl
  · rfl

theorem setAttribute_existsF (m : ModelState) (k : String) (v : JsVal) :
    (setAttribute m k v).existsF = m.existsF := by
  simp only [setAttribute]
  split
  · split <;> rfl
  · rfl

theorem setAttribute_deferred (m : ModelState) (k : String) (v : JsVal) :
    (setAttribute m k v).deferred = m.deferred := by
  simp only [setAttribute]
  split
  · split <;> rfl
  · rfl

theorem setAttribute_original (m : ModelState) (k : String) (v : JsVal) :
    (setAttribute m k v).original = m.original := by
  simp only [setAttribute]
  split
  · split <;> rfl
  · rfl

theorem setAttribute_fresh (m : ModelState) (k : String) (v : JsVal)
    (hdfd : m.deferred = none) (hex : m.existsF = true) (hk : m.dirty.contains k = false) :
    setAttribute m k v =
      { m with attributes := setA m.attributes k v, dirty := m.dirty ++ [k] } := by
  have hk2 : k ∉ m.dirty := by simpa using hk
  simp [setAttribute, hdfd, hex, hk2]

theorem foldl_setAttribute_attributes (l : List (String × JsVal)) (m : ModelState) :
    (l.foldl (fun acc kv => setAttribute acc kv.1 kv.2) m).attributes
      = l.foldl (fun acc kv => setA acc kv.1 kv.2) m.attributes := by
  induction l generalizing m with
  | nil => rfl
  | cons kv rest ih => simp [List.foldl_cons, ih, setAttribute_attributes]

theorem foldl_setAttribute_existsF (l : List (String × JsVal)) (m : ModelState) :
    (l.foldl (fun acc kv => setAttribute acc kv.1 kv.2) m).existsF = m.existsF := by
  induction l generalizing m with
  | nil => rfl
  | cons kv rest ih => simp [List.foldl_cons, ih, setAttribute_existsF]

theorem lookupA_foldl_setA (r : AttrList) (hnd : (r.map Prod.fst).Nodup) (init : AttrList)
    (k : String) :
    lookupA (r.foldl (fun a kv => setA a kv.1 kv.2) init) k
      = if k ∈ r.map Prod.fst then lookupA r k else lookupA init k := by
  induction r generalizing init with
  | nil => simp
  | cons kv rest ih =>
    simp only [List.map_cons, List.nodup_cons] at hnd
    have h0 : kv.1 ∉ rest.map Prod.fst := hnd.1
    rw [List.foldl_cons, ih hnd.2]
    by_cases hmem : k ∈ rest.map Prod.fst
    · have hne : ¬ kv.1 = k := fun he => h0 (he ▸ hmem)
      have hb : (kv.1 == k) = false := by simpa using hne
      simp [hmem, lookupA, List.find?, hb]
    · by_cases hk : k = kv.1
      · subst hk
        have hmem2 : kv.1 ∈ (kv :: rest).map Prod.fst := by simp
        rw [if_neg hmem, lookupA_setA_eq, if_pos hmem2]
        simp [lookupA, List.find?]
      · have hmem2 : k ∉ (kv :: rest).map Prod.fst := by simp [hk, hmem]
        rw [if_neg hmem, if_neg hmem2, lookupA_setA_ne init kv.1 k kv.2 hk]

theorem hydrate_existsF (r : AttrList) : (hydrate r).existsF = true := by
  unfold hydrate initializeM
  cases hE : r.isEmpty
  · simpa [hE] using foldl_setAttribute_existsF r _
  · simp [hE]

theorem hydrate_deferred (r : AttrList) : (hydrate r).deferred = none := by
  unfold hydrate initializeM
  cases hE : r.isEmpty <;> simp [hE, syncOriginal]

theorem hydrate_dirty (r : AttrList) : (hydrate r).dirty = [] := by
  unfold hydrate initializeM
  cases hE : r.isEmpty <;> simp [hE, syncOriginal]

theorem hydrate_original (r : AttrList) :
    (hydrate r).original = (hydrate r).attributes := by
  unfold hydrate initializeM
  cases hE : r.isEmpty <;> simp [hE, syncOriginal]

theorem hydrate_lookup (r : AttrList) (hnd : (r.map Prod.fst).Nodup) (k : String) :
    lookupA (hydrate r).attributes k = lookupA r k := by
  unfold hydrate initializeM
  cases hE : r.isEmpty
  · simp only [hE, if_neg Bool.false_ne_true, syncOriginal]
    rw [show (⟨[], [], [], true, false, some r⟩ : ModelState)
          = ({ deferred := some r, existsF := true } : ModelState) from rfl]
    rw [foldl_setAttribute_attributes, lookupA_foldl_setA r hnd]
    split
    · rfl
    · rename_i hmem
      rw [lookupA_of_not_mem r k hmem]
      rfl
  · have : r = [] := List.isEmpty_iff.mp hE
    subst this
    simp [hE]

theorem fireEvent_nil (m : ModelState) : fireEvent [] m = (true, m) := rfl

theorem initializeM_of_none (m : ModelState) (h : m.deferred = none) : initializeM m = m := by
  unfold initializeM
  rw [h]

theorem initializeM_existsF (m : ModelState) : (initializeM m).existsF = m.existsF := by
  unfold initializeM
  cases h : m.deferred
  · rfl
  · simpa [syncOriginal] using foldl_setAttribute_existsF _ m

theorem initializeM_dirty_of_nil (m : ModelState) (h : m.dirty = []) :
    (initializeM m).dirty = [] := by
  unfold initializeM
  cases hd : m.deferred
  · exact h
  · simp [syncOriginal]

theorem initializeM_original_of_some (m : ModelState) (attrs : AttrList)
    (h : m.deferred = some attrs) :
    (initializeM m).original = (initializeM m).attributes := by
  unfold initializeM
  rw [h]
  simp [syncOriginal]


theorem saveCreate_spec (cfg : ModelCfg) (ev : Events) (env : SaveEnv) (m : ModelState) :
    ((saveCreate cfg ev env m).ok = false ∧ (saveCreate cfg ev env m).queries = [])
    ∨ (∃ x, (saveCreate cfg ev env m).ok = true
        ∧ (saveCreate cfg ev env m).model = syncOriginal x) := by
  unfold saveCreate
  dsimp only
  split
  · exact Or.inl ⟨rfl, rfl⟩
  · split
    · exact Or.inl ⟨rfl, rfl⟩
    · exact Or.inr ⟨_, rfl, rfl⟩

theorem saveUpdate_spec (cfg : ModelCfg) (ev : Events) (env : SaveEnv) (m : ModelState) :
    ((saveUpdate cfg ev env m).ok = false ∧ (saveUpdate cfg ev env m).queries = [])
    ∨ (∃ x, (saveUpdate cfg ev env m).ok = true
        ∧ (saveUpdate cfg ev env m).model = syncOriginal x) := by
  unfold saveUpdate
  dsimp only
  split
  · exact Or.inl ⟨rfl, rfl⟩
  · split
    · exact Or.inl ⟨rfl, rfl⟩
    · exact Or.inr ⟨_, rfl, rfl⟩

/-- The case shape of every `save()` run: an aborted run returns `false`
having issued nothing; a completed run either resynced `original` at the very
end or took the clean no-op path. -/
theorem saveM_spec (cfg : ModelCfg) (ev : Events) (env : SaveEnv) (m0 : ModelState) :
    ((saveM cfg ev env m0).ok = false ∧ (saveM cfg ev env m0).queries = [])
    ∨ (∃ x, (saveM cfg ev env m0).ok = true ∧ (saveM cfg ev env m0).model = syncOriginal x)
    ∨ ((saveM cfg ev env m0).ok = true ∧ (saveM cfg ev env m0).model = initializeM m0
        ∧ isDirty (initializeM m0) = false
        ∧ (saveM cfg ev env m0).queries = [] ∧ (saveM cfg ev env m0).fired = []) := by
  unfold saveM
  dsimp only
  split
  · rcases saveCreate_spec cfg ev env (initializeM m0) with h | ⟨x, hx⟩
    · exact Or.inl h
    · exact Or.inr (Or.inl ⟨x, hx⟩)
  · split
    · rcases saveUpdate_spec cfg ev env (initializeM m0) with h | ⟨x, hx⟩
      · exact Or.inl h
      · exact Or.inr (Or.inl ⟨x, hx⟩)
    · rename_i h1 h2
      exact Or.inr (Or.inr ⟨rfl, rfl, by simpa [isDirty] using h2, rfl, rfl⟩)

theorem saveUpdate_noEvents (cfg : ModelCfg) (env : SaveEnv) (m : ModelState) :
    saveUpdate cfg noEvents env m =
      (let m1 := if cfg.timestamps then setAttribute m "updated_at" (.vdate env.now) else m
       let updateData := (getDirty m1).filter (fun kv => kv.1 ≠ "created_at")
       ⟨true, syncOriginal m1,
        (if updateData.isEmpty then []
         else [Query.updateQ cfg.table [WherePred.eqP cfg.primaryKey (getKey cfg m1)] updateData]),
        ["updating", "saving", "updated", "saved"]⟩) := rfl

theorem saveM_update_eq (cfg : ModelCfg) (ev : Events) (env : SaveEnv) (m : ModelState)
    (hdfd : m.deferred = none) (hex : m.existsF = true) (hd : m.dirty ≠ []) :
    saveM cfg ev env m = saveUpdate cfg ev env m := by
  unfold saveM
  dsimp only
  rw [initializeM_of_none m hdfd]
  rw [if_neg (by simp [hex]), if_pos (by simp [isDirty, hd])]

theorem saveM_noEvents_clean (cfg : ModelCfg) (env : SaveEnv) (m : ModelState) :
    (saveM cfg noEvents env m).model.existsF = true
    ∧ (saveM cfg noEvents env m).model.dirty = [] := by
  unfold saveM
  dsimp only
  split
  · exact ⟨rfl, rfl⟩
  · split
    · rename_i h1 h2
      have hex : (initializeM m).existsF = true := by simpa using h1
      unfold saveUpdate
      dsimp only
      constructor
      · show (syncOriginal _).existsF = true
        by_cases ht : cfg.timestamps <;>
          simp [ht, syncOriginal, setAttribute_existsF, hex, noEvents, fireEvent]
      · rfl
    · rename_i h1 h2
      refine ⟨by simpa using h1, ?_⟩
      have : isDirty (initializeM m) = false := by simpa using h2
      simpa [isDirty] using this

theorem deleteM_soft_noEvents (cfg : ModelCfg) (env : SaveEnv) (m : ModelState)
    (hex : m.existsF = true) (hsoft : cfg.softDeletes = true) :
    deleteM cfg noEvents env m =
      (let r := saveM cfg noEvents env (setAttribute m "deleted_at" (.vdate env.now))
       ⟨true, r.model, r.queries, "deleting" :: r.fired ++ ["deleted"]⟩) := by
  unfold deleteM
  dsimp only
  rw [if_neg (by simp [hex]), if_pos hsoft]
  rfl

theorem restoreModel_noEvents (cfg : ModelCfg) (env : SaveEnv) (m : ModelState)
    (hsoft : cfg.softDeletes = true) (htr : truthy (getAttribute m "deleted_at") = true) :
    restoreModel cfg noEvents env m =
      (let r := saveM cfg noEvents env (setAttribute m "deleted_at" .vnull)
       ⟨true, r.model, r.queries, "restoring" :: r.fired ++ ["restored"]⟩) := by
  unfold restoreModel
  dsimp only
  rw [if_neg (by simp [hsoft, htr])]
  rfl

theorem hydratedClean_hydrate (r : AttrList) : hydratedClean (hydrate r) = true := by
  unfold hydratedClean
  rw [hydrate_existsF, hydrate_dirty, hydrate_original]
  simp

theorem saveUpdate_queries_update (cfg : ModelCfg) (ev : Events) (env : SaveEnv)
    (m : ModelState) : (saveUpdate cfg ev env m).queries.all isUpdateQ = true := by
  unfold saveUpdate
  dsimp only
  split
  · rfl
  · split
    · rfl
    · split <;> split <;> rfl

theorem saveM_noEvents_ok (cfg : ModelCfg) (env : SaveEnv) (m : ModelState) :
    (saveM cfg noEvents env m).ok = true := by
  unfold saveM
  dsimp only
  split
  · rfl
  · split <;> rfl

theorem saveM_clean (cfg : ModelCfg) (ev : Events) (env : SaveEnv) (m : ModelState)
    (h1 : m.existsF = true) (h2 : m.dirty = []) :
    saveM cfg ev env m = ⟨true, initializeM m, [], []⟩ := by
  have hex : (initializeM m).existsF = true := by rw [initializeM_existsF]; exact h1
  have hd : (initializeM m).dirty = [] := initializeM_dirty_of_nil m h2
  unfold saveM
  dsimp only
  rw [if_neg (by simp [hex]), if_neg (by simp [isDirty, hd])]

/-! ### Claim theorems -/

/-- C1: the spec scenario `Order{id:1}`, `Order{id:2}`, `items` HasMany keyed
`order_id`, items `[{id:10,order_id:1},{id:11,order_id:1},{id:12,order_id:2}]`.
Eager loading does issue exactly one supplemental query of the claimed shape
`WHERE order_id IN (1,2)`, but because `loadRelation` groups the fetched rows
by the related class's primary key (`QueryBuilder.js` line 603) instead of
the foreign key, order 1 receives 0 items and order 2 receives 0 items —
not the 2 and 1 items the claim states.  This evaluates the code at the
failing input. -/
theorem C1_loadRelation_scenario :
    (loadRelationJS scenarioDb relItems "items" [order1, order2]).2
      = [Query.selectQ "items" [WherePred.inP "order_id" [JsVal.vnum 1, JsVal.vnum 2]]]
    ∧ ((loadRelationJS scenarioDb relItems "items" [order1, order2]).1.map
        (fun m => lookupRel m.relations "items"))
      = [some (RelEntry.many []), some (RelEntry.many [])] := ⟨rfl, rfl⟩

/-- C6 (counterexample): the round-trip law fails for the registered cast
`MoneyCast` at the value `0`: `set(0)` returns `null` (`0` is falsy in the
`value ? ... : null` guard), so `get(set(0))` is `null`, not `0`. -/
theorem C6_counterexample :
    MoneyCast.get (MoneyCast.set (some 0)) = none
    ∧ MoneyCast.get (MoneyCast.set (some 0)) ≠ some 0 := by
  constructor
  · decide
  · decide

/-- C6 (amended): the round-trip holds for the cited instances — for
`MoneyCast` on every non-zero whole-cent amount `n/100` (in particular
`19.99 = 1999/100`), and for `JsonCast` on `{a:1}` — though not for every
value (see the counterexample at `0`). -/
theorem C6_cast_round_trip (n : ℤ) (hn : n ≠ 0) :
    MoneyCast.get (MoneyCast.set (some ((n : ℚ) / 100))) = some ((n : ℚ) / 100)
    ∧ JsonCast.get (JsonCast.set valA1) = .jok valA1 := by
  constructor
  · have hn' : ((n : ℚ)) ≠ 0 := Int.cast_ne_zero.mpr hn
    have hq : ((n : ℚ) / 100) ≠ 0 := by
      simp [div_eq_zero_iff, hn']
    have harg : ((n : ℚ) / 100) * 100 = (n : ℚ) := by
      field_simp
    have hround : jsRound ((n : ℚ) / 100 * 100) = n := by
      rw [harg]
      unfold jsRound
      rw [Int.floor_int_add n (1 / 2 : ℚ), show ⌊(1 / 2 : ℚ)⌋ = 0 by norm_num, add_zero]
    have hset : MoneyCast.set (some ((n : ℚ) / 100)) = some ((n : ℚ)) := by
      show (if ((n : ℚ) / 100) = 0 then none
        else some ((jsRound ((n : ℚ) / 100 * 100) : ℤ) : ℚ)) = some ((n : ℚ))
      rw [if_neg hq, hround]
    rw [hset]
    show (if ((n : ℚ)) = 0 then none else some ((n : ℚ) / 100)) = some ((n : ℚ) / 100)
    rw [if_neg hn']
  · rfl

/-- C6 witness: the amended round trip at the cited money amount `19.99`. -/
theorem C6_witness :
    (1999 : ℤ) ≠ 0
    ∧ (MoneyCast.get (MoneyCast.set (some (((1999 : ℤ) : ℚ) / 100)))
         = some (((1999 : ℤ) : ℚ) / 100)
       ∧ JsonCast.get (JsonCast.set valA1) = .jok valA1) :=
  ⟨by decide, C6_cast_round_trip 1999 (by decide)⟩

/-- C7 (counterexample): the claim fails for a falsy (but non-null) stored
id: with `commentable_type = "Ghost"` unregistered and `commentable_id = 0`,
`MorphTo.getResults` returns `null` (the `!morphId` guard fires before the
registry lookup), not the unresolvable-reference error. -/
theorem C7_counterexample :
    morphToGetResults [] [("commentable_type", .vstr "Ghost"), ("commentable_id", .vnum 0)]
        "commentable_type" "commentable_id" = .retNull
    ∧ MorphToOutcome.retNull ≠ MorphToOutcome.thrown (morphToErrMsg "Ghost") := by
  constructor
  · rfl
  · decide

/-- C7 (amended): resolving a MorphTo whose owner stores a truthy (non-empty
string) type name absent from the registry together with a truthy id throws
the hard error naming the missing model; it never yields null in that case.
(With a falsy id — `null`, `0`, absent — or a falsy type name it returns
null instead, see the counterexample.) -/
theorem C7_unregistered_morph_throws (registry : List (String × RegEntry))
    (parent : AttrList) (morphType morphId s : String)
    (hs : lookupA parent morphType = .vstr s) (hne : s ≠ "")
    (hid : truthy (lookupA parent morphId) = true)
    (hreg : registry.find? (fun e => e.1 == s) = none) :
    morphToGetResults registry parent morphType morphId = .thrown (morphToErrMsg s) := by
  unfold morphToGetResults
  dsimp only
  rw [hs]
  have h1 : truthy (JsVal.vstr s) = true := by simpa [truthy] using hne
  simp [h1, hid, hreg]

/-- C7 witness: the amended statement at a concrete unregistered type name
with a truthy id. -/
theorem C7_witness :
    lookupA [("commentable_type", JsVal.vstr "Ghost"), ("commentable_id", JsVal.vnum 5)]
        "commentable_type" = .vstr "Ghost"
    ∧ morphToGetResults [] [("commentable_type", JsVal.vstr "Ghost"),
        ("commentable_id", JsVal.vnum 5)] "commentable_type" "commentable_id"
      = .thrown (morphToErrMsg "Ghost") :=
  ⟨rfl, C7_unregistered_morph_throws [] _ "commentable_type" "commentable_id" "Ghost"
    rfl (by decide) (by decide) rfl⟩

/-- C8 (counterexample): when every owner's linking key is null, the engine
issues no query but also assigns nothing: the owner's relations map has no
entry for the relation at all (it stays "not loaded"), rather than holding
the empty collection the claim requires. -/
theorem C8_counterexample :
    (loadRelationJS [] relItems "items" [ownerNull]).2 = []
    ∧ ((loadRelationJS [] relItems "items" [ownerNull]).1.map
        (fun m => lookupRel m.relations "items")) = [none]
    ∧ (none : Option RelEntry) ≠ some (RelEntry.many []) := by
  refine ⟨rfl, rfl, by decide⟩

/-- C8 (amended): when every owner's linking key value is falsy (null or
absent), `loadRelation` issues no supplemental query and returns early,
leaving every owner's relations map untouched — the relation stays
not-loaded (absent key) instead of being set to null / an empty
collection. -/
theorem C8_null_keys_short_circuit (db : List (String × List AttrList)) (rel : RelDesc)
    (relName : String) (models : List EModel)
    (h : ∀ o ∈ models, truthy (lookupA o.attributes rel.localKey) = false) :
    loadRelationJS db rel relName models = (models, []) := by
  unfold loadRelationJS
  have hf : (models.map (fun m => lookupA m.attributes rel.localKey)).filter truthy = [] := by
    rw [List.filter_eq_nil_iff]
    intro a ha
    rcases List.mem_map.mp ha with ⟨o, ho, rfl⟩
    simp [h o ho]
  simp [hf]

/-- C8 witness: the amended short-circuit at one owner with a stored-null
key. -/
theorem C8_witness :
    (∀ o ∈ [ownerNull], truthy (lookupA o.attributes relItems.localKey) = false)
    ∧ loadRelationJS [] relItems "items" [ownerNull] = ([ownerNull], []) := by
  have h : ∀ o ∈ [ownerNull], truthy (lookupA o.attributes relItems.localKey) = false := by
    decide
  exact ⟨h, C8_null_keys_short_circuit [] relItems "items" [ownerNull] h⟩

/-- C2 (counterexample): a `deleting` hook that returns `false` does not
abort `delete()`: on an existing (non-soft-deleting) order, `delete()` still
returns `true` and still issues the hard delete, because `Model.js` never
checks `fireEvent('deleting', ...)`'s result.  This contradicts the claim
that a falsy `deleting` hook makes `delete()` return `false` with no
further I/O. -/
theorem C2_counterexample :
    (deleteM cfgOrders evDeletingFalse {} mOrder1).ok = true
    ∧ (deleteM cfgOrders evDeletingFalse {} mOrder1).queries
        = [Query.deleteQ "orders" [WherePred.eqP "id" (JsVal.vnum 1)]] := ⟨rfl, rfl⟩

/-- C2 (amended): pre-action hooks abort only by returning strictly `false`,
and only for `save()`: (1) an aborted `save()` returns `false` having issued
no statements; (2)–(5) a strictly-`false` result of the `creating`,
`creating`-then-`saving`, `updating`, or `updating`-then-`saving` chain
makes `save()` return `false`; (6) `delete()` on an existing model returns
`true` regardless of what the `deleting` hook returns (its result is never
checked); (7) a handler returning the falsy value `0` does not abort the
chain. -/
theorem C2_preaction_abort (cfg : ModelCfg) (ev : Events) (env : SaveEnv) (m : ModelState) :
    ((saveM cfg ev env m).ok = false → (saveM cfg ev env m).queries = [])
    ∧ ((initializeM m).existsF = false → (fireEvent ev.creating (initializeM m)).1 = false →
        (saveM cfg ev env m).ok = false)
    ∧ (∀ m1, (initializeM m).existsF = false →
        fireEvent ev.creating (initializeM m) = (true, m1) →
        (fireEvent ev.saving m1).1 = false → (saveM cfg ev env m).ok = false)
    ∧ ((initializeM m).existsF = true → isDirty (initializeM m) = true →
        (fireEvent ev.updating (initializeM m)).1 = false → (saveM cfg ev env m).ok = false)
    ∧ (∀ m1, (initializeM m).existsF = true → isDirty (initializeM m) = true →
        fireEvent ev.updating (initializeM m) = (true, m1) →
        (fireEvent ev.saving m1).1 = false → (saveM cfg ev env m).ok = false)
    ∧ (m.existsF = true → (deleteM cfg ev env m).ok = true)
    ∧ (∀ (hs : List Handler) (m2 : ModelState),
        fireEvent ((fun x => (JsVal.vnum 0, x)) :: hs) m2 = fireEvent hs m2) := by
  refine ⟨?_, ?_, ?_, ?_, ?_, ?_, ?_⟩
  · intro hok
    rcases saveM_spec cfg ev env m with ⟨_, hq⟩ | ⟨x, hx, _⟩ | ⟨hx, _⟩
    · exact hq
    · rw [hx] at hok; cases hok
    · rw [hx] at hok; cases hok
  · intro hex hab
    unfold saveM
    dsimp only
    rw [if_pos (by simp [hex])]
    unfold saveCreate
    dsimp only
    rw [if_pos (by simp [hab])]
  · intro m1 hex hcr hsv
    unfold saveM
    dsimp only
    rw [if_pos (by simp [hex])]
    unfold saveCreate
    dsimp only
    rw [hcr]
    dsimp only
    rw [if_neg (by simp), if_pos (by simp [hsv])]
  · intro hex hd hab
    unfold saveM
    dsimp only
    rw [if_neg (by simp [hex]), if_pos hd]
    unfold saveUpdate
    dsimp only
    rw [if_pos (by simp [hab])]
  · intro m1 hex hd hup hsv
    unfold saveM
    dsimp only
    rw [if_neg (by simp [hex]), if_pos hd]
    unfold saveUpdate
    dsimp only
    rw [hup]
    dsimp only
    rw [if_neg (by simp), if_pos (by simp [hsv])]
  · intro hex
    unfold deleteM
    dsimp only
    rw [if_neg (by simp [hex])]
    split <;> rfl
  · intro hs m2
    rfl

/-- C2 witness: a `creating` handler returning strictly `false` makes
`save()` on a fresh model return `false`. -/
theorem C2_witness :
    (initializeM { } : ModelState).existsF = false
    ∧ (fireEvent evCreatingFalse.creating (initializeM ({ } : ModelState))).1 = false
    ∧ (saveM cfgOrders evCreatingFalse {} ({ } : ModelState)).ok = false := by
  refine ⟨rfl, rfl, ?_⟩
  exact (C2_preaction_abort cfgOrders evCreatingFalse {} ({ } : ModelState)).2.1 rfl rfl

/-- C3: after a `save()` that returns `true`, `isDirty()` is false and
`original[k] == attributes[k]` for every key `k` (the run either went
through a final `syncOriginal` or took the clean no-op path, where the
dirty/original invariant already gives the equality); moreover a hook-free
`save()` either leaves `original` untouched or replaces it with a full
resync to the current attributes — i.e. `original` is only ever replaced by
a load (`_initialize`) or at the end of a persisting save. -/
theorem C3_save_resyncs_original (cfg : ModelCfg) (ev : Events) (env : SaveEnv)
    (m : ModelState) (hInv : cleanInv m) :
    ((saveM cfg ev env m).ok = true →
      isDirty (saveM cfg ev env m).model = false
      ∧ ∀ k, lookupA (saveM cfg ev env m).model.original k
          = lookupA (saveM cfg ev env m).model.attributes k)
    ∧ ((saveM cfg noEvents env m).model.original = m.original
       ∨ (saveM cfg noEvents env m).model.original
           = (saveM cfg noEvents env m).model.attributes) := by
  constructor
  · intro hok
    rcases saveM_spec cfg ev env m with ⟨hf, _⟩ | ⟨x, _, hm⟩ | ⟨_, hm, hd, _, _⟩
    · rw [hf] at hok; cases hok
    · rw [hm]
      exact ⟨by simp [isDirty, syncOriginal], fun k => by simp [syncOriginal]⟩
    · rw [hm]
      have hdirty : (initializeM m).dirty = [] := by
        have := hd
        unfold isDirty at this
        simpa using this
      refine ⟨by simp [isDirty, hdirty], ?_⟩
      intro k
      cases hdfd : m.deferred with
      | none =>
          rw [initializeM_of_none m hdfd] at hdirty ⊢
          exact hInv k (by simp [hdirty])
      | some attrs =>
          rw [initializeM_original_of_some m attrs hdfd]
  · rcases saveM_spec cfg noEvents env m with ⟨hf, _⟩ | ⟨x, _, hm⟩ | ⟨_, hm, _, _, _⟩
    · rw [saveM_noEvents_ok cfg env m] at hf; cases hf
    · right
      rw [hm]
      simp [syncOriginal]
    · rw [hm]
      cases hdfd : m.deferred with
      | none => left; rw [initializeM_of_none m hdfd]
      | some attrs => right; exact initializeM_original_of_some m attrs hdfd

/-- C3 witness: the resync property at a concrete hydrated model with one
dirtied attribute. -/
theorem C3_witness :
    cleanInv (setAttribute mOrder1 "name" (.vstr "x"))
    ∧ (((saveM cfgOrders noEvents {} (setAttribute mOrder1 "name" (.vstr "x"))).ok = true →
        isDirty (saveM cfgOrders noEvents {} (setAttribute mOrder1 "name" (.vstr "x"))).model
            = false
        ∧ ∀ k, lookupA (saveM cfgOrders noEvents {}
              (setAttribute mOrder1 "name" (.vstr "x"))).model.original k
            = lookupA (saveM cfgOrders noEvents {}
              (setAttribute mOrder1 "name" (.vstr "x"))).model.attributes k)
      ∧ ((saveM cfgOrders noEvents {}
            (setAttribute mOrder1 "name" (.vstr "x"))).model.original
          = (setAttribute mOrder1 "name" (.vstr "x")).original
        ∨ (saveM cfgOrders noEvents {}
            (setAttribute mOrder1 "name" (.vstr "x"))).model.original
          = (saveM cfgOrders noEvents {}
            (setAttribute mOrder1 "name" (.vstr "x"))).model.attributes)) := by
  have hInv : cleanInv (setAttribute mOrder1 "name" (.vstr "x")) := by
    intro k hk
    have hne : k ≠ "name" := by
      intro he
      subst he
      refine hk ?_
      rw [show (setAttribute mOrder1 "name" (JsVal.vstr "x")).dirty = ["name"] from rfl]
      simp
    rw [show (setAttribute mOrder1 "name" (JsVal.vstr "x")).original = mOrder1.original from rfl,
        show (setAttribute mOrder1 "name" (JsVal.vstr "x")).attributes
          = setA mOrder1.attributes "name" (JsVal.vstr "x") from rfl,
        lookupA_setA_ne _ _ _ _ hne,
        show mOrder1.original = mOrder1.attributes from rfl]
  exact ⟨hInv, C3_save_resyncs_original cfgOrders noEvents {} _ hInv⟩

/-- C4: on a model that exists with an empty dirty set, `save()` returns
`true` having issued zero statements and fired zero lifecycle events; in
particular a second hook-free `save()` right after any hook-free `save()`
is an I/O no-op. -/
theorem C4_clean_save_no_io (cfg : ModelCfg) (ev : Events) (env env2 : SaveEnv)
    (m : ModelState) (h1 : m.existsF = true) (h2 : m.dirty = []) :
    ((saveM cfg ev env m).ok = true ∧ (saveM cfg ev env m).queries = []
      ∧ (saveM cfg ev env m).fired = [])
    ∧ ((saveM cfg noEvents env2 (saveM cfg noEvents env m).model).queries = []
      ∧ (saveM cfg noEvents env2 (saveM cfg noEvents env m).model).fired = []) := by
  constructor
  · rw [saveM_clean cfg ev env m h1 h2]
    exact ⟨rfl, rfl, rfl⟩
  · obtain ⟨he, hdm⟩ := saveM_noEvents_clean cfg env m
    rw [saveM_clean cfg noEvents env2 _ he hdm]
    exact ⟨rfl, rfl⟩

/-- C4 witness: the clean-save no-op at a concrete hydrated model. -/
theorem C4_witness :
    mOrder1.existsF = true ∧ mOrder1.dirty = []
    ∧ (((saveM cfgOrders noEvents {} mOrder1).ok = true
        ∧ (saveM cfgOrders noEvents {} mOrder1).queries = []
        ∧ (saveM cfgOrders noEvents {} mOrder1).fired = [])
      ∧ ((saveM cfgOrders noEvents {} (saveM cfgOrders noEvents {} mOrder1).model).queries = []
        ∧ (saveM cfgOrders noEvents {} (saveM cfgOrders noEvents {} mOrder1).model).fired
            = [])) :=
  ⟨rfl, rfl, C4_clean_save_no_io cfgOrders noEvents {} {} mOrder1 rfl rfl⟩

/-- C9: every model materialized by `get()` / `first()` / `find()` is
hydrated clean — `exists` is true, the dirty set is empty, and `original`
is identical to `attributes` — because `setAttribute` marks keys dirty only
outside deferred initialization on an existing model; a subsequent
`setAttribute` dirties exactly that key, and the following `save()` issues
only `update` statements (never an insert). -/
theorem C9_hydrated_clean (cfg : ModelCfg) (tm : TrashMode) (base : List WherePred)
    (table : List AttrList) (id : JsVal) (row : AttrList) (k : String) (v : JsVal)
    (ev : Events) (env : SaveEnv) :
    ((getJS cfg tm base table).1.all hydratedClean = true)
    ∧ ((firstJS cfg tm base table).1.all hydratedClean = true)
    ∧ ((findJS cfg tm base table id).1.all hydratedClean = true)
    ∧ ((hydrate row).existsF = true ∧ (hydrate row).dirty = []
        ∧ (hydrate row).original = (hydrate row).attributes)
    ∧ ((setAttribute (hydrate row) k v).dirty = [k])
    ∧ ((saveM cfg ev env (setAttribute (hydrate row) k v)).queries.all isUpdateQ = true) := by
  refine ⟨?_, ?_, ?_, ⟨hydrate_existsF row, hydrate_dirty row, hydrate_original row⟩, ?_, ?_⟩
  · rw [List.all_eq_true]
    intro x hx
    rcases List.mem_map.mp hx with ⟨r, _, rfl⟩
    exact hydratedClean_hydrate r
  · unfold firstJS
    dsimp only
    cases (runFilter (base ++ softPreds cfg tm) table).head? with
    | none => rfl
    | some r => exact hydratedClean_hydrate r
  · unfold findJS
    dsimp only
    cases (runFilter ((base ++ [WherePred.eqP "id" id]) ++ softPreds cfg tm) table).head? with
    | none => rfl
    | some r => exact hydratedClean_hydrate r
  · rw [setAttribute_fresh _ _ _ (hydrate_deferred row) (hydrate_existsF row)
        (by rw [hydrate_dirty]; rfl)]
    simp [hydrate_dirty]
  · have hdfd : (setAttribute (hydrate row) k v).deferred = none := by
      rw [setAttribute_deferred, hydrate_deferred]
    have hex : (setAttribute (hydrate row) k v).existsF = true := by
      rw [setAttribute_existsF, hydrate_existsF]
    have hd : (setAttribute (hydrate row) k v).dirty ≠ [] := by
      rw [setAttribute_fresh _ _ _ (hydrate_deferred row) (hydrate_existsF row)
          (by rw [hydrate_dirty]; rfl), hydrate_dirty]
      simp
    rw [saveM_update_eq cfg ev env _ hdfd hex hd]
    exact saveUpdate_queries_update cfg ev env _

/-- C10: `find(id)` filters on the literal column name `'id'`: its result is
entirely independent of the configured primary key, the one statement it
issues constrains `base` plus the literal `'id'` equality plus (at most) the
`'deleted_at'` sentinel — never the configured key — and `findOrFail`
issues exactly the same statement. -/
theorem C10_find_literal_id (cfg : ModelCfg) (p1 p2 : String) (tm : TrashMode)
    (base : List WherePred) (table : List AttrList) (id : JsVal) :
    (findJS { cfg with primaryKey := p1 } tm base table id
      = findJS { cfg with primaryKey := p2 } tm base table id)
    ∧ ((findJS cfg tm base table id).2
      = [Query.selectQ cfg.table ((base ++ [WherePred.eqP "id" id]) ++ softPreds cfg tm)])
    ∧ ((softPreds cfg tm).all (fun p => p.col == "deleted_at") = true)
    ∧ ((findOrFailJS cfg tm base table id).2 = (findJS cfg tm base table id).2) := by
  refine ⟨rfl, rfl, ?_, ?_⟩
  · unfold softPreds
    split
    · split
      · rfl
      · split <;> rfl
    · rfl
  · unfold findOrFailJS
    rcases h : findJS cfg tm base table id with ⟨o, qs⟩
    cases o <;> simp [h]

/-- The exact effect of a hook-free `save()` on an existing clean model
after one `setAttribute(key, v)`: the update path runs, stamping
`updated_at` when timestamps are on, and issues exactly one `update`
statement keyed on the configured primary key. -/
theorem setKey_save_noEvents (cfg : ModelCfg) (env : SaveEnv) (m : ModelState)
    (key : String) (v : JsVal)
    (hdfd : m.deferred = none) (hex : m.existsF = true) (hdirty : m.dirty = [])
    (hk1 : key ≠ "created_at") (hk2 : key ≠ "updated_at")
    (hp : cfg.primaryKey ≠ key) (hpu : cfg.primaryKey ≠ "updated_at") :
    saveM cfg noEvents env (setAttribute m key v)
      = ⟨true,
         syncOriginal (if cfg.timestamps
           then setAttribute (setAttribute m key v) "updated_at" (JsVal.vdate env.now)
           else setAttribute m key v),
         [Query.updateQ cfg.table
           [WherePred.eqP cfg.primaryKey (lookupA m.attributes cfg.primaryKey)]
           ((key, v) :: (if cfg.timestamps then [("updated_at", JsVal.vdate env.now)] else []))],
         ["updating", "saving", "updated", "saved"]⟩ := by
  have h1dirty : (setAttribute m key v).dirty = [key] := by
    rw [setAttribute_fresh _ _ _ hdfd hex (by rw [hdirty]; rfl)]
    simp [hdirty]
  have h1attr := setAttribute_attributes m key v
  have h1dfd : (setAttribute m key v).deferred = none := by
    rw [setAttribute_deferred]; exact hdfd
  have h1ex : (setAttribute m key v).existsF = true := by
    rw [setAttribute_existsF]; exact hex
  rw [saveM_update_eq cfg noEvents env _ h1dfd h1ex (by rw [h1dirty]; simp)]
  rw [saveUpdate_noEvents]
  cases ht : cfg.timestamps with
  | false =>
    simp only [Bool.false_eq_true, if_false]
    have hgd : getDirty (setAttribute m key v) = [(key, v)] := by
      unfold getDirty
      rw [h1dirty]
      simp [h1attr, lookupA_setA_eq]
    rw [hgd]
    have hfil : ([(key, v)] : AttrList).filter (fun kv => kv.1 ≠ "created_at") = [(key, v)] := by
      simp [hk1]
    rw [hfil]
    have hkeyv : getKey cfg (setAttribute m key v) = lookupA m.attributes cfg.primaryKey := by
      unfold getKey
      rw [h1attr, lookupA_setA_ne _ _ _ _ hp]
    rw [hkeyv]
    simp
  | true =>
    simp only [eq_self_iff_true, if_true]
    have h2dirty : (setAttribute (setAttribute m key v) "updated_at" (JsVal.vdate env.now)).dirty
        = [key, "updated_at"] := by
      rw [setAttribute_fresh _ _ _ h1dfd h1ex (by rw [h1dirty]; simpa using Ne.symm hk2)]
      simp [h1dirty]
    have h2attr := setAttribute_attributes (setAttribute m key v) "updated_at" (JsVal.vdate env.now)
    have hgd : getDirty (setAttribute (setAttribute m key v) "updated_at" (JsVal.vdate env.now))
        = [(key, v), ("updated_at", JsVal.vdate env.now)] := by
      unfold getDirty
      rw [h2dirty]
      simp only [List.map_cons, List.map_nil]
      rw [h2attr, h1attr]
      rw [lookupA_setA_ne _ _ _ _ hk2, lookupA_setA_eq, lookupA_setA_eq]
    rw [hgd]
    have hfil : ([(key, v), ("updated_at", JsVal.vdate env.now)] : AttrList).filter
        (fun kv => kv.1 ≠ "created_at") = [(key, v), ("updated_at", JsVal.vdate env.now)] := by
      simp [hk1]
    rw [hfil]
    have hkeyv : getKey cfg (setAttribute (setAttribute m key v) "updated_at" (JsVal.vdate env.now))
        = lookupA m.attributes cfg.primaryKey := by
      unfold getKey
      rw [h2attr, h1attr, lookupA_setA_ne _ _ _ _ hpu, lookupA_setA_ne _ _ _ _ hp]
    rw [hkeyv]
    simp

/-- C5: on a soft-deleting model class, `delete()` of a hydrated row
succeeds and flips the `deleted_at` sentinel via one update statement; the
updated row is then absent from a default `get()` (which appends
`whereNull('deleted_at')`), still present under `withTrashed()` (no
sentinel filter), present under `onlyTrashed()` (`whereNotNull`), and after
`restore()` (which nulls the sentinel and saves) the row reappears in a
default `get()`. -/
theorem C5_soft_delete_visibility
    (tname pk : String) (kts inc ts : Bool) (T : List AttrList) (r : AttrList)
    (env env2 : SaveEnv)
    (hnd : (r.map Prod.fst).Nodup) (hrT : r ∈ T)
    (hkey : isDbNull (lookupA r pk) = false)
    (hp1 : pk ≠ "deleted_at") (hp2 : pk ≠ "updated_at") :
    (deleteM ⟨tname, pk, kts, inc, ts, true⟩ noEvents env (hydrate r)).ok = true
    ∧ (applyData r (("deleted_at", JsVal.vdate env.now) ::
          (if ts then [("updated_at", JsVal.vdate env.now)] else [])))
        ∉ runFilter (softPreds ⟨tname, pk, kts, inc, ts, true⟩ trashDefault)
            (applyQueries T (deleteM ⟨tname, pk, kts, inc, ts, true⟩ noEvents env
              (hydrate r)).queries)
    ∧ (applyData r (("deleted_at", JsVal.vdate env.now) ::
          (if ts then [("updated_at", JsVal.vdate env.now)] else [])))
        ∈ runFilter (softPreds ⟨tname, pk, kts, inc, ts, true⟩ trashWith)
            (applyQueries T (deleteM ⟨tname, pk, kts, inc, ts, true⟩ noEvents env
              (hydrate r)).queries)
    ∧ (applyData r (("deleted_at", JsVal.vdate env.now) ::
          (if ts then [("updated_at", JsVal.vdate env.now)] else [])))
        ∈ runFilter (softPreds ⟨tname, pk, kts, inc, ts, true⟩ trashOnly)
            (applyQueries T (deleteM ⟨tname, pk, kts, inc, ts, true⟩ noEvents env
              (hydrate r)).queries)
    ∧ (restoreModel ⟨tname, pk, kts, inc, ts, true⟩ noEvents env2
        (deleteM ⟨tname, pk, kts, inc, ts, true⟩ noEvents env (hydrate r)).model).ok = true
    ∧ (applyData (applyData r (("deleted_at", JsVal.vdate env.now) ::
          (if ts then [("updated_at", JsVal.vdate env.now)] else [])))
        (("deleted_at", JsVal.vnull) ::
          (if ts then [("updated_at", JsVal.vdate env2.now)] else [])))
        ∈ runFilter (softPreds ⟨tname, pk, kts, inc, ts, true⟩ trashDefault)
            (applyQueries
              (applyQueries T (deleteM ⟨tname, pk, kts, inc, ts, true⟩ noEvents env
                (hydrate r)).queries)
              (restoreModel ⟨tname, pk, kts, inc, ts, true⟩ noEvents env2
                (deleteM ⟨tname, pk, kts, inc, ts, true⟩ noEvents env (hydrate r)).model).queries)
            := by
  have hmex := hydrate_existsF r
  have hmdfd := hydrate_deferred r
  have hmd := hydrate_dirty r
  have hK := hydrate_lookup r hnd pk
  have hdel := deleteM_soft_noEvents (⟨tname, pk, kts, inc, ts, true⟩ : ModelCfg) env
    (hydrate r) hmex rfl
  have hsave := setKey_save_noEvents (⟨tname, pk, kts, inc, ts, true⟩ : ModelCfg) env
    (hydrate r) "deleted_at" (JsVal.vdate env.now) hmdfd hmex hmd
    (by decide) (by decide) hp1 hp2
  rw [hsave] at hdel
  dsimp only at hdel
  rw [hK] at hdel
  -- facts about the deleted row
  have hrow1da : lookupA (applyData r (("deleted_at", JsVal.vdate env.now) ::
      (if ts then [("updated_at", JsVal.vdate env.now)] else []))) "deleted_at"
      = JsVal.vdate env.now := by
    cases ts
    · simp only [Bool.false_eq_true, if_false, applyData, List.foldl_cons, List.foldl_nil]
      rw [lookupA_setA_eq]
    · simp only [eq_self_iff_true, if_true, applyData, List.foldl_cons, List.foldl_nil]
      rw [lookupA_setA_ne _ _ _ _ (by decide), lookupA_setA_eq]
  have hrow1pk : lookupA (applyData r (("deleted_at", JsVal.vdate env.now) ::
      (if ts then [("updated_at", JsVal.vdate env.now)] else []))) pk
      = lookupA r pk := by
    cases ts
    · simp only [Bool.false_eq_true, if_false, applyData, List.foldl_cons, List.foldl_nil]
      rw [lookupA_setA_ne _ _ _ _ hp1]
    · simp only [eq_self_iff_true, if_true, applyData, List.foldl_cons, List.foldl_nil]
      rw [lookupA_setA_ne _ _ _ _ hp2, lookupA_setA_ne _ _ _ _ hp1]
  -- the deleted row is the image of r under the update statement
  have hmemT1 : (applyData r (("deleted_at", JsVal.vdate env.now) ::
      (if ts then [("updated_at", JsVal.vdate env.now)] else [])))
      ∈ applyQueries T (deleteM ⟨tname, pk, kts, inc, ts, true⟩ noEvents env
          (hydrate r)).queries := by
    rw [hdel]
    simp only [applyQueries, List.foldl_cons, List.foldl_nil, applyQuery]
    have hfr : (if ([WherePred.eqP pk (lookupA r pk)].all
          (fun p => p.holds r)) = true
        then applyData r (("deleted_at", JsVal.vdate env.now) ::
          (if ts then [("updated_at", JsVal.vdate env.now)] else []))
        else r)
        = applyData r (("deleted_at", JsVal.vdate env.now) ::
          (if ts then [("updated_at", JsVal.vdate env.now)] else [])) := by
      rw [if_pos]
      simp [WherePred.holds, dbEq_self _ hkey]
    rw [← hfr]
    exact List.mem_map_of_mem _ hrT
  refine ⟨?_, ?_, ?_, ?_, ?_, ?_⟩
  · rw [hdel]
  · have hsp : softPreds (⟨tname, pk, kts, inc, ts, true⟩ : ModelCfg) trashDefault
        = [.nullP "deleted_at"] := rfl
    rw [hsp]
    intro hmem
    unfold runFilter at hmem
    have hall := (List.mem_filter.mp hmem).2
    simp [WherePred.holds, hrow1da, isDbNull] at hall
  · have hsp : softPreds (⟨tname, pk, kts, inc, ts, true⟩ : ModelCfg) trashWith = [] := rfl
    rw [hsp]
    simpa [runFilter] using hmemT1
  · have hsp : softPreds (⟨tname, pk, kts, inc, ts, true⟩ : ModelCfg) trashOnly
        = [.notNullP "deleted_at"] := rfl
    rw [hsp]
    unfold runFilter
    refine List.mem_filter.mpr ⟨hmemT1, ?_⟩
    simp [WherePred.holds, hrow1da, isDbNull]
  all_goals {
    -- restore facts
    have hm2dfd : (deleteM ⟨tname, pk, kts, inc, ts, true⟩ noEvents env
        (hydrate r)).model.deferred = none := by
      rw [hdel]
      cases ts <;>
        simp [syncOriginal, setAttribute_deferred, hmdfd]
    have hm2ex : (deleteM ⟨tname, pk, kts, inc, ts, true⟩ noEvents env
        (hydrate r)).model.existsF = true := by
      rw [hdel]
      cases ts <;>
        simp [syncOriginal, setAttribute_existsF, hmex]
    have hm2dirty : (deleteM ⟨tname, pk, kts, inc, ts, true⟩ noEvents env
        (hydrate r)).model.dirty = [] := by
      rw [hdel]
      rfl
    have hm2da : lookupA (deleteM ⟨tname, pk, kts, inc, ts, true⟩ noEvents env
        (hydrate r)).model.attributes "deleted_at" = JsVal.vdate env.now := by
      rw [hdel]
      cases ts
      · simp only [Bool.false_eq_true, if_false, syncOriginal, setAttribute_attributes]
        rw [lookupA_setA_eq]
      · simp only [eq_self_iff_true, if_true, syncOriginal, setAttribute_attributes]
        rw [lookupA_setA_ne _ _ _ _ (by decide), lookupA_setA_eq]
    have hm2pk : lookupA (deleteM ⟨tname, pk, kts, inc, ts, true⟩ noEvents env
        (hydrate r)).model.attributes pk = lookupA r pk := by
      rw [hdel]
      cases ts
      · simp only [Bool.false_eq_true, if_false, syncOriginal, setAttribute_attributes]
        rw [lookupA_setA_ne _ _ _ _ hp1, hK]
      · simp only [eq_self_iff_true, if_true, syncOriginal, setAttribute_attributes]
        rw [lookupA_setA_ne _ _ _ _ hp2, lookupA_setA_ne _ _ _ _ hp1, hK]
    have htr : truthy (getAttribute (deleteM ⟨tname, pk, kts, inc, ts, true⟩ noEvents env
        (hydrate r)).model "deleted_at") = true := by
      unfold getAttribute
      rw [hm2da]
      rfl
    have hrst := restoreModel_noEvents (⟨tname, pk, kts, inc, ts, true⟩ : ModelCfg) env2
      ((deleteM ⟨tname, pk, kts, inc, ts, true⟩ noEvents env (hydrate r)).model) rfl htr
    have hsave2 := setKey_save_noEvents (⟨tname, pk, kts, inc, ts, true⟩ : ModelCfg) env2
      ((deleteM ⟨tname, pk, kts, inc, ts, true⟩ noEvents env (hydrate r)).model)
      "deleted_at" JsVal.vnull hm2dfd hm2ex hm2dirty (by decide) (by decide) hp1 hp2
    rw [hsave2] at hrst
    dsimp only at hrst
    rw [hm2pk] at hrst
    first
    | · -- rst.ok = true
        rw [hrst]
    | · -- restored row membership
        rw [hrst]
        have hsp : softPreds (⟨tname, pk, kts, inc, ts, true⟩ : ModelCfg) trashDefault
            = [.nullP "deleted_at"] := rfl
        rw [hsp]
        unfold runFilter
        refine List.mem_filter.mpr ⟨?_, ?_⟩
        · simp only [applyQueries, List.foldl_cons, List.foldl_nil, applyQuery]
          have hfr : (if ([WherePred.eqP pk (lookupA r pk)].all
                (fun p => p.holds (applyData r (("deleted_at", JsVal.vdate env.now) ::
                  (if ts then [("updated_at", JsVal.vdate env.now)] else []))))) = true
              then applyData (applyData r (("deleted_at", JsVal.vdate env.now) ::
                  (if ts then [("updated_at", JsVal.vdate env.now)] else [])))
                  (("deleted_at", JsVal.vnull) ::
                    (if ts then [("updated_at", JsVal.vdate env2.now)] else []))
              else (applyData r (("deleted_at", JsVal.vdate env.now) ::
                  (if ts then [("updated_at", JsVal.vdate env.now)] else []))))
              = applyData (applyData r (("deleted_at", JsVal.vdate env.now) ::
                  (if ts then [("updated_at", JsVal.vdate env.now)] else [])))
                  (("deleted_at", JsVal.vnull) ::
                    (if ts then [("updated_at", JsVal.vdate env2.now)] else [])) := by
            rw [if_pos]
            simp [WherePred.holds, hrow1pk, dbEq_self _ hkey]
          rw [← hfr]
          exact List.mem_map_of_mem _ hmemT1
        · have hrow2da : lookupA (applyData (applyData r
              (("deleted_at", JsVal.vdate env.now) ::
                (if ts then [("updated_at", JsVal.vdate env.now)] else [])))
              (("deleted_at", JsVal.vnull) ::
                (if ts then [("updated_at", JsVal.vdate env2.now)] else []))) "deleted_at"
              = JsVal.vnull := by
            cases ts
            · simp only [Bool.false_eq_true, if_false, applyData, List.foldl_cons,
                List.foldl_nil]
              rw [lookupA_setA_eq]
            · simp only [eq_self_iff_true, if_true, applyData, List.foldl_cons,
                List.foldl_nil]
              rw [lookupA_setA_ne _ _ _ _ (by decide), lookupA_setA_eq]
          simp [WherePred.holds, hrow2da, isDbNull]
  }

/-- C5 witness: the visibility cycle at a concrete soft-deleting posts table
with one stored row. -/
theorem C5_witness :
    ((rowPost.map Prod.fst).Nodup ∧ rowPost ∈ [rowPost]
      ∧ isDbNull (lookupA rowPost "id") = false
      ∧ "id" ≠ "deleted_at" ∧ "id" ≠ "updated_at")
    ∧ ((deleteM ⟨"posts", "id", false, true, true, true⟩ noEvents {} (hydrate rowPost)).ok
        = true
      ∧ (applyData rowPost (("deleted_at", JsVal.vdate ({} : SaveEnv).now) ::
            (if true then [("updated_at", JsVal.vdate ({} : SaveEnv).now)] else [])))
          ∉ runFilter (softPreds ⟨"posts", "id", false, true, true, true⟩ trashDefault)
              (applyQueries [rowPost] (deleteM ⟨"posts", "id", false, true, true, true⟩
                noEvents {} (hydrate rowPost)).queries)
      ∧ (applyData rowPost (("deleted_at", JsVal.vdate ({} : SaveEnv).now) ::
            (if true then [("updated_at", JsVal.vdate ({} : SaveEnv).now)] else [])))
          ∈ runFilter (softPreds ⟨"posts", "id", false, true, true, true⟩ trashWith)
              (applyQueries [rowPost] (deleteM ⟨"posts", "id", false, true, true, true⟩
                noEvents {} (hydrate rowPost)).queries)
      ∧ (applyData rowPost (("deleted_at", JsVal.vdate ({} : SaveEnv).now) ::
            (if true then [("updated_at", JsVal.vdate ({} : SaveEnv).now)] else [])))
          ∈ runFilter (softPreds ⟨"posts", "id", false, true, true, true⟩ trashOnly)
              (applyQueries [rowPost] (deleteM ⟨"posts", "id", false, true, true, true⟩
                noEvents {} (hydrate rowPost)).queries)
      ∧ (restoreModel ⟨"posts", "id", false, true, true, true⟩ noEvents {}
          (deleteM ⟨"posts", "id", false, true, true, true⟩ noEvents {}
            (hydrate rowPost)).model).ok = true
      ∧ (applyData (applyData rowPost (("deleted_at", JsVal.vdate ({} : SaveEnv).now) ::
            (if true then [("updated_at", JsVal.vdate ({} : SaveEnv).now)] else [])))
          (("deleted_at", JsVal.vnull) ::
            (if true then [("updated_at", JsVal.vdate ({} : SaveEnv).now)] else [])))
          ∈ runFilter (softPreds ⟨"posts", "id", false, true, true, true⟩ trashDefault)
              (applyQueries
                (applyQueries [rowPost] (deleteM ⟨"posts", "id", false, true, true, true⟩
                  noEvents {} (hydrate rowPost)).queries)
                (restoreModel ⟨"posts", "id", false, true, true, true⟩ noEvents {}
                  (deleteM ⟨"posts", "id", false, true, true, true⟩ noEvents {}
                    (hydrate rowPost)).model).queries)) := by
  have h := C5_soft_delete_visibility "posts" "id" false true true [rowPost] rowPost {} {}
    (by decide) (by decide) (by decide) (by decide) (by decide)
  exact ⟨⟨by decide, by decide, by decide, by decide, by decide⟩, h⟩
